import Mathlib

/-!
Verification of the figure-generation script
src/conference_paper_figures/figure_rq2.py.

The script loads a tab-separated table of records
(llm, prompt, ssvc_decision_point, f1_harmonic_mean), keeps the top five
scores per prompting technique, assigns marker shapes to models and colors
to decision points, renders a scatter plot with per-point score labels,
builds two legends, and exports the figure to four image files.

Scores are modelled as rationals.  Pandas unique() is modelled by a
first-occurrence deduplication, Python sorted() and pandas nlargest() by a
stable sort (insertion sort, which agrees with every stable sort), Python
split on a one-character separator by a list splitter, and the fallible
pieces (word[0] on an empty segment, max() of an empty column, file
writes) by Option-valued functions or an explicit success predicate.
-/

/-- One row of the input table llm_pt_sdp_f1_harmonic_means.csv:
columns llm, prompt, ssvc_decision_point, f1_harmonic_mean. -/
structure Record where
  llm : String
  prompt : String
  ssvc_decision_point : String
  f1_harmonic_mean : ℚ
deriving DecidableEq, Repr

/-- Helper for uniqueList: drop the values already seen. -/
def uniqueAux {α : Type} [DecidableEq α] (seen : List α) : List α → List α
  | [] => []
  | x :: xs => if x ∈ seen then uniqueAux seen xs else x :: uniqueAux (x :: seen) xs

/-- Model of pandas Series.unique(): the distinct values in order of first
appearance. -/
def uniqueList {α : Type} [DecidableEq α] (l : List α) : List α :=
  uniqueAux [] l

/-- Lexicographic comparison of char lists by code point, the order
Python uses on strings. -/
def charListLe : List Char → List Char → Bool
  | [], _ => true
  | _ :: _, [] => false
  | a :: as, b :: bs => if a < b then true else if b < a then false else charListLe as bs

/-- Lexicographic string comparison by code point. -/
def strLe (a b : String) : Bool :=
  charListLe a.toList b.toList

/-- Model of Python sorted() on strings: ascending stable sort. -/
def sortAsc (l : List String) : List String :=
  l.insertionSort (fun a b => strLe a b = true)

/-- Stable sort of records by f1_harmonic_mean descending, the order
pandas nlargest uses (ties kept in original positional order). -/
def sortDescScore (rows : List Record) : List Record :=
  rows.insertionSort (fun a b => b.f1_harmonic_mean ≤ a.f1_harmonic_mean)

/-- Model of DataFrame.nlargest(n, column): the n rows with the largest
scores, ties broken by position. -/
def nlargest (n : Nat) (rows : List Record) : List Record :=
  (sortDescScore rows).take n

/-- prompts = df.prompt.unique() (line 26). -/
def prompts (rows : List Record) : List String :=
  uniqueList (rows.map (fun r => r.prompt))

/-- Model of Python str.split(sep) for a one-character separator: splits
at every occurrence, keeping empty segments, and maps the empty input to
one empty segment. -/
def splitOnChar (c : Char) : List Char → List (List Char)
  | [] => [[]]
  | x :: xs =>
    match splitOnChar c xs, decide (x = c) with
    | r, true => [] :: r
    | [], false => [[x]]
    | w :: ws, false => (x :: w) :: ws

/-- word[0].upper() on one underscore-delimited segment: none models the
IndexError raised on an empty segment (line 34). -/
def upperFirst? (w : List Char) : Option Char :=
  w.head?.map Char.toUpper

/-- prompt_abbrev for a single technique string (lines 33-34): split on
underscores, uppercase the first letter of each word, join.  none models
the uncaught IndexError on an empty segment. -/
def prompt_abbrev (p : String) : Option String :=
  ((splitOnChar '_' p.toList).mapM upperFirst?).map (fun cs => String.mk cs)

/-- 0-based position of a string in a list (position of the first
occurrence); models the index a dict comprehension over an enumerated
list associates to a key. -/
def rankIn : List String → String → Nat
  | [], _ => 0
  | x :: xs, m => if m = x then 0 else rankIn xs m + 1

/-- prompt_mapping (line 38): technique to its index in the ascending sort
of all distinct techniques of the full table. -/
def prompt_mapping (rows : List Record) (p : String) : Nat :=
  rankIn (sortAsc (prompts rows)) p

/-- top_df (lines 41-47): for each technique, in first-appearance order,
the top five rows by score, concatenated. -/
def top_df (rows : List Record) : List Record :=
  (prompts rows).flatMap (fun p => nlargest 5 (rows.filter (fun r => r.prompt == p)))

/-- top_llms = top_df.llm.unique() (line 50). -/
def top_llms (rows : List Record) : List String :=
  uniqueList ((top_df rows).map (fun r => r.llm))

/-- top_decision_points = top_df.ssvc_decision_point.unique() (line 51). -/
def top_decision_points (rows : List Record) : List String :=
  uniqueList ((top_df rows).map (fun r => r.ssvc_decision_point))

/-- The fixed 12-element marker sequence (line 54). -/
def markers : List Char :=
  ['o', 's', 'D', '^', 'v', '<', '>', 'p', '*', 'h', 'H', 'X']

/-- llm_markers (line 55): the dict built by enumerating sorted(top_llms)
and taking markers[i % len(markers)], as an association list. -/
def llm_markers (rows : List Record) : List (String × Char) :=
  ((sortAsc (top_llms rows)).enum).map
    (fun q => (q.2, markers.getD (q.1 % markers.length) 'o'))

/-- Model of sns.color_palette("colorblind", n) (line 59): the colorblind
palette has 10 base colors and is cycled to the requested length; a color
is represented by its index in the 10-color base palette. -/
def color_palette (n : Nat) : List Nat :=
  (List.range n).map (fun i => i % 10)

/-- decision_colors (line 60): the dict built by enumerating
sorted(top_decision_points) and taking colors[i], as an association
list. -/
def decision_colors (rows : List Record) : List (String × Nat) :=
  ((sortAsc (top_decision_points rows)).enum).map
    (fun q => (q.2, (color_palette (top_decision_points rows).length).getD q.1 0))

/-- The scatter points drawn by the nested loops of lines 67-81: for each
sorted model and each sorted decision point, the matching top_df rows,
plotted at (prompt_numeric, f1_harmonic_mean). -/
def plotted_points (rows : List Record) : List (Nat × ℚ) :=
  (sortAsc (top_llms rows)).flatMap (fun l =>
    (sortAsc (top_decision_points rows)).flatMap (fun d =>
      ((top_df rows).filter
          (fun r => r.llm == l && r.ssvc_decision_point == d)).map
        (fun r => (prompt_mapping rows r.prompt, r.f1_harmonic_mean))))

/-- ax.set_xticks(range(len(prompts))) (line 152). -/
def xticks (rows : List Record) : List Nat :=
  List.range (prompts rows).length

/-- y_min = 0.5 (line 159). -/
def y_min : ℚ := 1 / 2

/-- Lines 158-161: ax.set_ylim(0.5, max(top_df.f1_harmonic_mean) * 1.05);
none models the uncaught error of max() on an empty column. -/
def y_limits (rows : List Record) : Option (ℚ × ℚ) :=
  (((top_df rows).map (fun r => r.f1_harmonic_mean)).max?).map
    (fun m => (y_min, m * (21 / 20)))

/-- model_name[0].upper() + model_name[1:] guarded by a non-emptiness
check (lines 122-123). -/
def cap1 : List Char → List Char
  | [] => []
  | c :: cs => Char.toUpper c :: cs

/-- The cleaned model name used for the model legend (lines 115-123):
part after the last slash, then the part before the first hyphen when a
hyphen occurs, first letter uppercased. -/
def legend_model_name (m : String) : String :=
  let m1 := (splitOnChar '/' m.toList).getLastD []
  let m2 := if '-' ∈ m1 then (splitOnChar '-' m1).headD [] else m1
  String.mk (cap1 m2)

/-- Reading of the claim text for the model legend label: the text of the
identifier before its first hyphen, capitalized (no slash handling). -/
def spec_model_label (m : String) : String :=
  String.mk (cap1 ((splitOnChar '-' m.toList).headD []))

/-- The labels of the model legend, in legend order (lines 113-126). -/
def model_legend_labels (rows : List Record) : List String :=
  (sortAsc (top_llms rows)).map legend_model_name

/-- decision.replace(underscore, space) (line 131): a one-character
replacement, so a character-wise map. -/
def legend_decision_label (d : String) : String :=
  String.mk (d.toList.map (fun c => if c = '_' then ' ' else c))

/-- The labels of the decision-point legend, in legend order
(lines 129-133). -/
def decision_legend_labels (rows : List Record) : List String :=
  (sortAsc (top_decision_points rows)).map legend_decision_label

/-- The four fixed output file names (lines 176-179), in write order. -/
def output_files : List String :=
  ["prompt_top5_performance_plot.pdf", "prompt_top5_performance_plot.png",
   "prompt_top5_performance_plot.tiff", "prompt_top5_performance_plot.eps"]

/-- Sequential unguarded writes (lines 176-179): ok says which writes
succeed; the first failing write raises, aborting the run, and the files
already written stay on disk.  Returns (files written, run completed). -/
def export_run : List String → (String → Bool) → List String × Bool
  | [], _ => ([], true)
  | f :: fs, ok =>
    if ok f then
      let r := export_run fs ok
      (f :: r.1, r.2)
    else ([], false)

/-- A write environment in which only the PDF write succeeds. -/
def ok_pdf_only : String → Bool :=
  fun f => f == "prompt_top5_performance_plot.pdf"

/-- The pipeline in script order: abbreviations for every distinct
technique (lines 30-35) are computed before the figure is drawn and the
axes configured (lines 63-161) and before any file is written (lines
176-179).  none models an uncaught error aborting the run with no figure
and no output files; on success it returns the abbreviation list, the
y-axis limits and the files written. -/
def run_script (rows : List Record) : Option (List String × (ℚ × ℚ) × List String) :=
  match (prompts rows).mapM prompt_abbrev with
  | none => none
  | some abbrevs =>
    match y_limits rows with
    | none => none
    | some yl => some (abbrevs, yl, output_files)

/-- A table whose top-5 subset holds 13 distinct models (three techniques
with 5, 5 and 3 rows). -/
def rows13 : List Record :=
  [⟨"a01", "p1", "d1", 13⟩, ⟨"a02", "p1", "d1", 12⟩, ⟨"a03", "p1", "d1", 11⟩,
   ⟨"a04", "p1", "d1", 10⟩, ⟨"a05", "p1", "d1", 9⟩,
   ⟨"a06", "p2", "d1", 8⟩, ⟨"a07", "p2", "d1", 7⟩, ⟨"a08", "p2", "d1", 6⟩,
   ⟨"a09", "p2", "d1", 5⟩, ⟨"a10", "p2", "d1", 4⟩,
   ⟨"a11", "p3", "d1", 3⟩, ⟨"a12", "p3", "d1", 2⟩, ⟨"a13", "p3", "d1", 1⟩]

/-- A table whose single model identifier holds a slash before its first
hyphen. -/
def rowsC9 : List Record :=
  [⟨"meta/llama-3", "p1", "d1", 1⟩]

/-! ### Helper lemmas -/

theorem mem_uniqueAux {α : Type} [DecidableEq α] (a : α) (l : List α) :
    ∀ seen : List α, a ∈ uniqueAux seen l ↔ a ∈ l ∧ a ∉ seen := by
  induction l with
  | nil => intro seen; simp [uniqueAux]
  | cons x xs ih =>
    intro seen
    by_cases hx : x ∈ seen
    · rw [uniqueAux, if_pos hx, ih seen]
      constructor
      · exact fun h => ⟨List.mem_cons_of_mem _ h.1, h.2⟩
      · rintro ⟨hor, h2⟩
        rcases List.mem_cons.1 hor with rfl | h1
        · exact absurd hx h2
        · exact ⟨h1, h2⟩
    · rw [uniqueAux, if_neg hx]
      simp only [List.mem_cons, ih (x :: seen)]
      constructor
      · rintro (rfl | ⟨h1, h2⟩)
        · exact ⟨Or.inl rfl, hx⟩
        · exact ⟨Or.inr h1, fun hs => h2 (Or.inr hs)⟩
      · rintro ⟨rfl | h1, h2⟩
        · exact Or.inl rfl
        · by_cases hax : a = x
          · exact Or.inl hax
          · refine Or.inr ⟨h1, fun hs => ?_⟩
            rcases hs with h | h
            · exact hax h
            · exact h2 h

theorem mem_uniqueList {α : Type} [DecidableEq α] {a : α} {l : List α} :
    a ∈ uniqueList l ↔ a ∈ l := by
  rw [uniqueList, mem_uniqueAux]
  simp

theorem nodup_uniqueAux {α : Type} [DecidableEq α] (l : List α) :
    ∀ seen : List α, (uniqueAux seen l).Nodup := by
  induction l with
  | nil => intro seen; simp [uniqueAux]
  | cons x xs ih =>
    intro seen
    by_cases hx : x ∈ seen
    · rw [uniqueAux, if_pos hx]; exact ih seen
    · rw [uniqueAux, if_neg hx, List.nodup_cons]
      refine ⟨fun hmem => ?_, ih (x :: seen)⟩
      exact ((mem_uniqueAux x xs (x :: seen)).1 hmem).2 (List.mem_cons_self x seen)

theorem nodup_uniqueList {α : Type} [DecidableEq α] (l : List α) :
    (uniqueList l).Nodup :=
  nodup_uniqueAux l []

theorem sortAsc_perm (l : List String) : (sortAsc l).Perm l :=
  List.perm_insertionSort _ l

theorem mem_sortAsc {a : String} {l : List String} : a ∈ sortAsc l ↔ a ∈ l :=
  (sortAsc_perm l).mem_iff

theorem sortAsc_length (l : List String) : (sortAsc l).length = l.length :=
  (sortAsc_perm l).length_eq

theorem sortAsc_nodup {l : List String} (h : l.Nodup) : (sortAsc l).Nodup :=
  ((sortAsc_perm l).nodup_iff).mpr h

theorem sortDescScore_perm (rows : List Record) : (sortDescScore rows).Perm rows :=
  List.perm_insertionSort _ rows

theorem sortDescScore_sorted (rows : List Record) :
    List.Pairwise (fun a b => b.f1_harmonic_mean ≤ a.f1_harmonic_mean)
      (sortDescScore rows) := by
  haveI : IsTotal Record (fun a b => b.f1_harmonic_mean ≤ a.f1_harmonic_mean) :=
    ⟨fun a b => le_total _ _⟩
  haveI : IsTrans Record (fun a b => b.f1_harmonic_mean ≤ a.f1_harmonic_mean) :=
    ⟨fun _ _ _ hab hbc => le_trans hbc hab⟩
  exact List.sorted_insertionSort _ rows

theorem rankIn_eq_zero (xs : List String) (m : String) :
    rankIn (m :: xs) m = 0 := by
  rw [rankIn, if_pos rfl]

theorem rankIn_cons_ne (xs : List String) (x m : String) (h : m ≠ x) :
    rankIn (x :: xs) m = rankIn xs m + 1 := by
  rw [rankIn, if_neg h]

theorem getD_map_rankIn {β : Type} (f : String → β) (d : β) (m : String) :
    ∀ l : List String, m ∈ l → (l.map f).getD (rankIn l m) d = f m := by
  intro l
  induction l with
  | nil => intro h; cases h
  | cons x xs ih =>
    intro h
    by_cases hmx : m = x
    · subst hmx
      rw [rankIn_eq_zero]
      rfl
    · have hmem : m ∈ xs := by
        rcases List.mem_cons.1 h with h1 | h1
        · exact absurd h1 hmx
        · exact h1
      rw [rankIn_cons_ne _ _ _ hmx, List.map_cons, List.getD_cons_succ]
      exact ih hmem

theorem map_rankIn : ∀ l : List String, l.Nodup → l.map (rankIn l) = List.range l.length := by
  intro l
  induction l with
  | nil => intro _; rfl
  | cons x xs ih =>
    intro hnd
    have hx : x ∉ xs := (List.nodup_cons.1 hnd).1
    rw [List.map_cons, rankIn_eq_zero]
    have h1 : xs.map (rankIn (x :: xs)) = xs.map (fun y => rankIn xs y + 1) := by
      apply List.map_congr_left
      intro y hy
      have hyx : y ≠ x := fun hcon => hx (hcon ▸ hy)
      exact rankIn_cons_ne _ _ _ hyx
    rw [h1]
    have h2 : xs.map (fun y => rankIn xs y + 1)
        = (xs.map (rankIn xs)).map (fun n => n + 1) := by
      rw [List.map_map]
      rfl
    rw [h2, ih (List.nodup_cons.1 hnd).2, List.length_cons, List.range_succ_eq_map]

theorem lookup_enumFrom {β : Type} (f : Nat → β) (m : String) :
    ∀ (l : List String) (n : Nat), m ∈ l →
      ((l.enumFrom n).map (fun q => (q.2, f q.1))).lookup m
        = some (f (n + rankIn l m)) := by
  intro l
  induction l with
  | nil => intro n h; cases h
  | cons x xs ih =>
    intro n h
    by_cases hmx : m = x
    · subst hmx
      rw [rankIn_eq_zero, Nat.add_zero]
      simp [List.enumFrom, List.lookup]
    · have hmem : m ∈ xs := by
        rcases List.mem_cons.1 h with h1 | h1
        · exact absurd h1 hmx
        · exact h1
      have hbeq : (m == x) = false := by
        simp [hmx]
      have hstep : ((List.enumFrom n (x :: xs)).map (fun q => (q.2, f q.1))).lookup m
          = ((List.enumFrom (n + 1) xs).map (fun q => (q.2, f q.1))).lookup m := by
        simp [List.enumFrom, List.lookup, hbeq]
      have harith : n + 1 + rankIn xs m = n + (rankIn xs m + 1) := by omega
      rw [hstep, ih (n + 1) hmem, harith, rankIn_cons_ne _ _ _ hmx]

theorem prompt_of_mem_nlargest (rows : List Record) (p : String) (r : Record)
    (h : r ∈ nlargest 5 (rows.filter (fun x => x.prompt == p))) : r.prompt = p := by
  have h1 : r ∈ sortDescScore (rows.filter (fun x => x.prompt == p)) :=
    List.mem_of_mem_take h
  have h2 : r ∈ rows.filter (fun x => x.prompt == p) :=
    (sortDescScore_perm _).subset h1
  have h3 := (List.mem_filter.1 h2).2
  simpa using h3

theorem filter_flatMap_blocks (t : String) (f : String → List Record)
    (hf : ∀ p, ∀ r ∈ f p, r.prompt = p) :
    ∀ ps : List String, ps.Nodup →
      ((ps.flatMap f).filter (fun r => r.prompt == t))
        = if t ∈ ps then f t else [] := by
  intro ps
  induction ps with
  | nil => intro _; simp
  | cons p ps ih =>
    intro hnd
    have hpns : p ∉ ps := (List.nodup_cons.1 hnd).1
    have hnd2 : ps.Nodup := (List.nodup_cons.1 hnd).2
    rw [List.flatMap_cons, List.filter_append, ih hnd2]
    by_cases hpt : p = t
    · subst hpt
      have h1 : (f p).filter (fun r => r.prompt == p) = f p :=
        List.filter_eq_self.2 (fun r hr => by simp [hf p r hr])
      rw [h1, if_neg hpns, if_pos (List.mem_cons_self p ps), List.append_nil]
    · have h1 : (f p).filter (fun r => r.prompt == t) = [] := by
        rw [List.filter_eq_nil_iff]
        intro r hr hcon
        apply hpt
        rw [← hf p r hr]
        simpa using hcon
      rw [h1, List.nil_append]
      by_cases htps : t ∈ ps
      · rw [if_pos htps, if_pos (List.mem_cons_of_mem _ htps)]
      · rw [if_neg htps, if_neg ?_]
        intro hcon
        rcases List.mem_cons.1 hcon with h | h
        · exact hpt h.symm
        · exact htps h

theorem top_df_filter (rows : List Record) (t : String) :
    (top_df rows).filter (fun r => r.prompt == t)
      = nlargest 5 (rows.filter (fun r => r.prompt == t)) := by
  rw [top_df,
    filter_flatMap_blocks t _ (fun p r hr => prompt_of_mem_nlargest rows p r hr)
      (prompts rows) (nodup_uniqueList _)]
  by_cases ht : t ∈ prompts rows
  · rw [if_pos ht]
  · rw [if_neg ht]
    have hempty : rows.filter (fun r => r.prompt == t) = [] := by
      rw [List.filter_eq_nil_iff]
      intro r hr hcon
      apply ht
      have : r.prompt = t := by simpa using hcon
      rw [← this]
      exact mem_uniqueList.2 (List.mem_map_of_mem _ hr)
    rw [hempty]
    rfl

theorem top_df_ne_nil {rows : List Record} (h : rows ≠ []) : top_df rows ≠ [] := by
  obtain ⟨r, hr⟩ := List.exists_mem_of_ne_nil rows h
  have hp : r.prompt ∈ prompts rows := mem_uniqueList.2 (List.mem_map_of_mem _ hr)
  have hrf : r ∈ rows.filter (fun x => x.prompt == r.prompt) :=
    List.mem_filter.2 ⟨hr, by simp⟩
  have hs : sortDescScore (rows.filter (fun x => x.prompt == r.prompt)) ≠ [] := by
    intro hcon
    have hperm := sortDescScore_perm (rows.filter (fun x => x.prompt == r.prompt))
    rw [hcon] at hperm
    rw [hperm.symm.eq_nil] at hrf
    cases hrf
  obtain ⟨x, xs, hxs⟩ := List.exists_cons_of_ne_nil hs
  have hx : x ∈ nlargest 5 (rows.filter (fun y => y.prompt == r.prompt)) := by
    have : nlargest 5 (rows.filter (fun y => y.prompt == r.prompt))
        = x :: List.take 4 xs := by
      rw [nlargest, hxs]
      rfl
    rw [this]
    exact List.mem_cons_self x _
  exact List.ne_nil_of_mem (List.mem_flatMap.2 ⟨r.prompt, hp, hx⟩)

theorem mapM_upperFirst_some :
    ∀ ws : List (List Char), (∀ w ∈ ws, w ≠ []) →
      ws.mapM upperFirst? = some (ws.map (fun w => (w.headD 'a').toUpper)) := by
  intro ws
  induction ws with
  | nil => intro _; rfl
  | cons w ws ih =>
    intro h
    obtain ⟨c, cs, rfl⟩ := List.exists_cons_of_ne_nil (h w (List.mem_cons_self _ _))
    rw [List.mapM_cons, ih (fun x hx => h x (List.mem_cons_of_mem _ hx))]
    rfl

theorem mapM_eq_none_of_mem {α β : Type} (f : α → Option β) :
    ∀ (l : List α) (x : α), x ∈ l → f x = none → l.mapM f = none := by
  intro l
  induction l with
  | nil => intro x hx; cases hx
  | cons y ys ih =>
    intro x hx hfx
    rw [List.mapM_cons]
    rcases List.mem_cons.1 hx with rfl | hmem
    · rw [hfx]
      rfl
    · cases hfy : f y with
      | none => rfl
      | some a =>
        rw [ih x hmem hfx]
        rfl

theorem export_run_steps (fs : List String) (ok : String → Bool) :
    ∃ k, k ≤ fs.length ∧ (export_run fs ok).1 = fs.take k
      ∧ ((export_run fs ok).2 = true ↔ k = fs.length) := by
  induction fs with
  | nil => exact ⟨0, by simp [export_run]⟩
  | cons f fs ih =>
    by_cases hf : ok f
    · obtain ⟨k, hk, h1, h2⟩ := ih
      refine ⟨k + 1, by simpa using hk, ?_, ?_⟩
      · rw [export_run, if_pos hf, List.take_succ_cons]
        simpa using h1
      · rw [export_run, if_pos hf]
        simpa using h2
    · refine ⟨0, Nat.zero_le _, ?_, ?_⟩
      · rw [export_run, if_neg hf]
        rfl
      · rw [export_run, if_neg hf]
        simp

/-! ### Claims -/

/-- Claim C1 (confirmed): for every prompting technique, the subset used
for rendering keeps exactly min(5, count) records of that technique,
namely a length-5 prefix of the score-descending stable sort of the
technique records, and every record of the technique excluded from the
subset (the remainder of that sort) has a score at most the score of
every kept record; fewer than 5 are kept when the technique has fewer
than 5 records, and the order among equal scores is the stable one. -/
theorem claim_C1 (rows : List Record) (t : String) :
    ((top_df rows).filter (fun r => r.prompt == t)).length
        = min 5 (rows.filter (fun r => r.prompt == t)).length
    ∧ (sortDescScore (rows.filter (fun r => r.prompt == t))).Perm
        (rows.filter (fun r => r.prompt == t))
    ∧ (top_df rows).filter (fun r => r.prompt == t)
        = (sortDescScore (rows.filter (fun r => r.prompt == t))).take 5
    ∧ ∀ a ∈ (sortDescScore (rows.filter (fun r => r.prompt == t))).drop 5,
        ∀ b ∈ (top_df rows).filter (fun r => r.prompt == t),
          a.f1_harmonic_mean ≤ b.f1_harmonic_mean := by
  have hfil := top_df_filter rows t
  refine ⟨?_, sortDescScore_perm _, hfil, ?_⟩
  · rw [hfil, nlargest, List.length_take, (sortDescScore_perm _).length_eq]
  · intro a ha b hb
    rw [hfil, nlargest] at hb
    have hpw := sortDescScore_sorted (rows.filter (fun r => r.prompt == t))
    have hsplit :=
      List.take_append_drop 5 (sortDescScore (rows.filter (fun r => r.prompt == t)))
    rw [← hsplit] at hpw
    exact (List.pairwise_append.1 hpw).2.2 b hb a ha

/-- Claim C2 (confirmed): for every non-empty input table, the y-axis
limits are exactly the data-independent lower bound 0.5 and the upper
bound 1.05 times the maximum score occurring in the filtered top-5
subset. -/
theorem claim_C2 (rows : List Record) (h : rows ≠ []) :
    y_min = 1 / 2
    ∧ ∃ M : ℚ, M ∈ (top_df rows).map (fun r => r.f1_harmonic_mean)
        ∧ (∀ x ∈ (top_df rows).map (fun r => r.f1_harmonic_mean), x ≤ M)
        ∧ y_limits rows = some (1 / 2, M * (21 / 20)) := by
  refine ⟨rfl, ?_⟩
  have hne : (top_df rows).map (fun r => r.f1_harmonic_mean) ≠ [] := by
    intro hcon
    exact top_df_ne_nil h (List.map_eq_nil_iff.1 hcon)
  obtain ⟨M, hM⟩ :
      ∃ M, ((top_df rows).map (fun r => r.f1_harmonic_mean)).max? = some M := by
    cases hmx : ((top_df rows).map (fun r => r.f1_harmonic_mean)).max? with
    | none => exact absurd (List.max?_eq_none_iff.1 hmx) hne
    | some M => exact ⟨M, rfl⟩
  refine ⟨M, List.max?_mem (fun a b => max_choice a b) hM, ?_, ?_⟩
  · intro x hx
    exact (List.max?_le_iff (fun a b c => max_le_iff) hM).1 le_rfl x hx
  · rw [y_limits, hM]
    rfl

/-- Witness for C2 at a concrete one-row table. -/
theorem claim_C2_witness :
    y_min = 1 / 2
    ∧ ∃ M : ℚ, M ∈ (top_df [⟨"m1", "p1", "d1", 1⟩]).map (fun r => r.f1_harmonic_mean)
        ∧ (∀ x ∈ (top_df [⟨"m1", "p1", "d1", 1⟩]).map (fun r => r.f1_harmonic_mean),
            x ≤ M)
        ∧ y_limits [⟨"m1", "p1", "d1", 1⟩] = some (1 / 2, M * (21 / 20)) :=
  claim_C2 [⟨"m1", "p1", "d1", 1⟩] (by decide)

theorem llm_markers_snd (rows : List Record) :
    (llm_markers rows).map Prod.snd
      = (List.range (sortAsc (top_llms rows)).length).map
          (fun i => markers.getD (i % markers.length) 'o') := by
  rw [llm_markers, List.map_map]
  have h2 : (Prod.snd ∘ fun q : Nat × String => (q.2, markers.getD (q.1 % markers.length) 'o'))
      = (fun i => markers.getD (i % markers.length) 'o') ∘ Prod.fst := rfl
  rw [h2, ← List.map_map, List.enum_map_fst]

/-- Counterexample for C3: on a table whose top-5 subset holds 13
distinct models, 12 distinct marker shapes are assigned, while 13 mod 12
is 1; the counts also differ modulo 12. -/
theorem claim_C3_counterexample :
    (top_llms rows13).length = 13
    ∧ ((llm_markers rows13).map Prod.snd).toFinset.card = 12
    ∧ ((llm_markers rows13).map Prod.snd).toFinset.card
        ≠ (top_llms rows13).length % 12
    ∧ ((llm_markers rows13).map Prod.snd).toFinset.card % 12
        ≠ (top_llms rows13).length % 12 := by
  decide

/-- Claim C3 (corrected): the number of distinct marker shapes assigned
to models of the filtered subset equals min(number of distinct models in
the subset, 12), not that number modulo 12. -/
theorem claim_C3_amended (rows : List Record) :
    ((llm_markers rows).map Prod.snd).toFinset.card
      = min (top_llms rows).length 12 := by
  rw [llm_markers_snd]
  have hlen : (sortAsc (top_llms rows)).length = (top_llms rows).length :=
    sortAsc_length _
  rw [hlen]
  have h1 : ∀ n : Nat,
      ((List.range n).map (fun i => markers.getD (i % markers.length) 'o')).toFinset
        = (Finset.range n).image (fun i => markers.getD (i % markers.length) 'o') := by
    intro n
    ext x
    simp
  rw [h1]
  have himg : (Finset.range (top_llms rows).length).image
        (fun i => markers.getD (i % markers.length) 'o')
      = (Finset.range (min (top_llms rows).length 12)).image
        (fun i => markers.getD (i % markers.length) 'o') := by
    ext x
    simp only [Finset.mem_image, Finset.mem_range]
    constructor
    · rintro ⟨i, hi, rfl⟩
      refine ⟨i % 12, by omega, ?_⟩
      have hmm : i % 12 % markers.length = i % markers.length := by
        show i % 12 % 12 = i % 12
        omega
      rw [hmm]
    · rintro ⟨i, hi, rfl⟩
      exact ⟨i, by omega, rfl⟩
  have hinj : ∀ i < 12, ∀ j < 12,
      markers.getD (i % markers.length) 'o' = markers.getD (j % markers.length) 'o'
        → i = j := by
    decide
  have hinjOn : Set.InjOn (fun i => markers.getD (i % markers.length) 'o')
      ↑(Finset.range (min (top_llms rows).length 12)) := by
    intro i hi j hj hij
    simp only [Finset.coe_range, Set.mem_Iio] at hi hj
    exact hinj i (by omega) j (by omega) hij
  rw [himg, Finset.card_image_of_injOn hinjOn, Finset.card_range]

/-- Counterexample for C4: in a run where the PDF write succeeds and the
PNG write fails, the process terminates with exactly one of the four
files written - a proper non-empty subset of the outputs exists at
termination. -/
theorem claim_C4_counterexample :
    (export_run output_files ok_pdf_only).1 = ["prompt_top5_performance_plot.pdf"]
    ∧ (export_run output_files ok_pdf_only).2 = false
    ∧ (export_run output_files ok_pdf_only).1 ≠ []
    ∧ (export_run output_files ok_pdf_only).1.length < output_files.length := by
  decide

/-- Claim C4 (corrected): the four files are written one after another in
a fixed order with no retries and no cleanup; a completed run has written
all four, and an aborted run stops at the first failing write leaving
exactly the files before it - a possibly empty, possibly proper and
non-empty, prefix of the four - written at termination. -/
theorem claim_C4_amended (ok : String → Bool) :
    ∃ k, k ≤ output_files.length
      ∧ (export_run output_files ok).1 = output_files.take k
      ∧ ((export_run output_files ok).2 = true ↔ k = output_files.length) :=
  export_run_steps output_files ok

/-- Witness for C4 in the environment where every write succeeds. -/
theorem claim_C4_witness :
    ∃ k, k ≤ output_files.length
      ∧ (export_run output_files (fun _ => true)).1 = output_files.take k
      ∧ ((export_run output_files (fun _ => true)).2 = true
          ↔ k = output_files.length) :=
  claim_C4_amended (fun _ => true)

/-- Claim C5 (confirmed): each distinct model of the filtered subset is
assigned the marker at index (rank mod 12) of the fixed 12-element marker
sequence, rank being the model 0-based position in the ascending string
sort of the distinct subset models; the mod-12 reduction makes the
assignment wrap around when more than 12 models appear. -/
theorem claim_C5 (rows : List Record) (m : String) (h : m ∈ top_llms rows) :
    markers.length = 12
    ∧ (llm_markers rows).lookup m
        = some (markers.getD (rankIn (sortAsc (top_llms rows)) m % 12) 'o') := by
  refine ⟨rfl, ?_⟩
  have hmem : m ∈ sortAsc (top_llms rows) := mem_sortAsc.mpr h
  have hlk := lookup_enumFrom (fun i => markers.getD (i % markers.length) 'o') m
    (sortAsc (top_llms rows)) 0 hmem
  rw [Nat.zero_add] at hlk
  exact hlk

/-- Witness for C5 at a concrete one-row table. -/
theorem claim_C5_witness :
    markers.length = 12
    ∧ (llm_markers [⟨"m1", "p1", "d1", 1⟩]).lookup "m1"
        = some (markers.getD
            (rankIn (sortAsc (top_llms [⟨"m1", "p1", "d1", 1⟩])) "m1" % 12) 'o') :=
  claim_C5 [⟨"m1", "p1", "d1", 1⟩] "m1" (by decide)

/-- Claim C6 (confirmed): the color palette is sized exactly to the
number of distinct decision-point categories of the filtered subset, the
category-to-color assignment holds exactly one entry per such category,
and the category at 0-based rank i of the ascending sorted category names
receives palette color i. -/
theorem claim_C6 (rows : List Record) :
    (color_palette (top_decision_points rows).length).length
        = (top_decision_points rows).length
    ∧ (decision_colors rows).length = (top_decision_points rows).length
    ∧ ∀ dp ∈ top_decision_points rows,
        (decision_colors rows).lookup dp
          = some ((color_palette (top_decision_points rows).length).getD
              (rankIn (sortAsc (top_decision_points rows)) dp) 0) := by
  refine ⟨by simp [color_palette], ?_, ?_⟩
  · rw [decision_colors, List.length_map, List.enum_length, sortAsc_length]
  · intro dp hdp
    have hmem : dp ∈ sortAsc (top_decision_points rows) := mem_sortAsc.mpr hdp
    have hlk := lookup_enumFrom
      (fun i => (color_palette (top_decision_points rows).length).getD i 0) dp
      (sortAsc (top_decision_points rows)) 0 hmem
    rw [Nat.zero_add] at hlk
    exact hlk

/-- Witness for C6 at a concrete one-row table. -/
theorem claim_C6_witness :
    (decision_colors [⟨"m1", "p1", "d1", 1⟩]).lookup "d1"
      = some ((color_palette (top_decision_points [⟨"m1", "p1", "d1", 1⟩]).length).getD
          (rankIn (sortAsc (top_decision_points [⟨"m1", "p1", "d1", 1⟩])) "d1") 0) :=
  (claim_C6 [⟨"m1", "p1", "d1", 1⟩]).2.2 "d1" (by decide)

/-- Claim C7 (confirmed): on every technique string whose
underscore-delimited segments are all non-empty, the abbreviator returns
the concatenation of the uppercased first letters of the segments, and no
collision detection is performed - the two distinct techniques
chain_of_thought and chain_over_time share the abbreviation COT. -/
theorem claim_C7 :
    (∀ p : String, (∀ w ∈ splitOnChar '_' p.toList, w ≠ []) →
        prompt_abbrev p
          = some (String.mk ((splitOnChar '_' p.toList).map
              (fun w => (w.headD 'a').toUpper))))
    ∧ prompt_abbrev "chain_of_thought" = prompt_abbrev "chain_over_time"
    ∧ "chain_of_thought" ≠ "chain_over_time" := by
  refine ⟨?_, by decide, by decide⟩
  intro p hp
  rw [prompt_abbrev, mapM_upperFirst_some _ hp]
  rfl

/-- Witness for C7 at a concrete technique string. -/
theorem claim_C7_witness :
    prompt_abbrev "few_shot"
      = some (String.mk ((splitOnChar '_' "few_shot".toList).map
          (fun w => (w.headD 'a').toUpper))) :=
  claim_C7.1 "few_shot" (by decide)

/-- Claim C8 (confirmed): every record of the filtered subset is plotted
at x equal to the 0-based index of its technique in the ascending sort of
the distinct techniques of the full table (not of the subset) and y equal
to its score, and the x-axis tick positions are exactly the positions of
all distinct techniques. -/
theorem claim_C8 (rows : List Record) (r : Record) (h : r ∈ top_df rows) :
    (prompt_mapping rows r.prompt, r.f1_harmonic_mean) ∈ plotted_points rows
    ∧ xticks rows
        = (sortAsc (prompts rows)).map (fun p => prompt_mapping rows p) := by
  constructor
  · have hl : r.llm ∈ sortAsc (top_llms rows) :=
      mem_sortAsc.mpr (mem_uniqueList.mpr (List.mem_map_of_mem _ h))
    have hd : r.ssvc_decision_point ∈ sortAsc (top_decision_points rows) :=
      mem_sortAsc.mpr (mem_uniqueList.mpr (List.mem_map_of_mem _ h))
    refine List.mem_flatMap.mpr ⟨r.llm, hl, ?_⟩
    refine List.mem_flatMap.mpr ⟨r.ssvc_decision_point, hd, ?_⟩
    refine List.mem_map.mpr ⟨r, ?_, rfl⟩
    exact List.mem_filter.mpr ⟨h, by simp⟩
  · rw [show (sortAsc (prompts rows)).map (fun p => prompt_mapping rows p)
        = List.range (sortAsc (prompts rows)).length
      from map_rankIn _ (sortAsc_nodup (nodup_uniqueList _)), sortAsc_length]
    rfl

/-- Witness for C8 at a concrete one-row table. -/
theorem claim_C8_witness :
    (prompt_mapping [⟨"m1", "p1", "d1", 1⟩] (Record.mk "m1" "p1" "d1" 1).prompt,
        (Record.mk "m1" "p1" "d1" 1).f1_harmonic_mean)
      ∈ plotted_points [⟨"m1", "p1", "d1", 1⟩]
    ∧ xticks [⟨"m1", "p1", "d1", 1⟩]
        = (sortAsc (prompts [⟨"m1", "p1", "d1", 1⟩])).map
            (fun p => prompt_mapping [⟨"m1", "p1", "d1", 1⟩] p) :=
  claim_C8 [⟨"m1", "p1", "d1", 1⟩] (Record.mk "m1" "p1" "d1" 1) (by decide)

/-- Counterexample for C9: for the model identifier meta/llama-3 the
script builds the legend label Llama (part after the last slash, cut at
the first hyphen, first letter uppercased), while the claimed rule (text
of the identifier before its first hyphen, capitalized) yields
Meta/llama. -/
theorem claim_C9_counterexample :
    model_legend_labels rowsC9 = ["Llama"]
    ∧ (sortAsc (top_llms rowsC9)).map spec_model_label = ["Meta/llama"]
    ∧ model_legend_labels rowsC9
        ≠ (sortAsc (top_llms rowsC9)).map spec_model_label := by
  decide

/-- Claim C9 (corrected): the model legend entry at a model sorted rank
is the text of the identifier after its last slash and before its first
hyphen (the whole post-slash part when it has no hyphen), with its first
letter uppercased; the decision-point legend labels are the category
names with underscores replaced by spaces. -/
theorem claim_C9_amended (rows : List Record) (m : String) (h : m ∈ top_llms rows) :
    (model_legend_labels rows).getD (rankIn (sortAsc (top_llms rows)) m) ""
        = String.mk (cap1 (
            let m1 := (splitOnChar '/' m.toList).getLastD []
            if '-' ∈ m1 then (splitOnChar '-' m1).headD [] else m1))
    ∧ decision_legend_labels rows
        = (sortAsc (top_decision_points rows)).map
            (fun d => String.mk (d.toList.map (fun c => if c = '_' then ' ' else c))) := by
  constructor
  · exact getD_map_rankIn legend_model_name "" m _ (mem_sortAsc.mpr h)
  · rfl

/-- Witness for C9 (amended) at the concrete table rowsC9. -/
theorem claim_C9_witness :
    (model_legend_labels rowsC9).getD
        (rankIn (sortAsc (top_llms rowsC9)) "meta/llama-3") ""
      = String.mk (cap1 (
          let m1 := (splitOnChar '/' "meta/llama-3".toList).getLastD []
          if '-' ∈ m1 then (splitOnChar '-' m1).headD [] else m1))
    ∧ decision_legend_labels rowsC9
        = (sortAsc (top_decision_points rowsC9)).map
            (fun d => String.mk (d.toList.map (fun c => if c = '_' then ' ' else c))) :=
  claim_C9_amended rowsC9 "meta/llama-3" (by decide)

/-- Claim C10 (confirmed): the abbreviator is partial - on any technique
string with an empty underscore-delimited segment (leading, trailing or
doubled underscore), taking the first character of that segment fails,
and a table containing such a technique string aborts the whole run
before any figure or file output is produced. -/
theorem claim_C10 :
    (∀ p : String, [] ∈ splitOnChar '_' p.toList → prompt_abbrev p = none)
    ∧ ∀ rows : List Record,
        (∃ r ∈ rows, [] ∈ splitOnChar '_' r.prompt.toList)
          → run_script rows = none := by
  have habort : ∀ p : String, [] ∈ splitOnChar '_' p.toList
      → prompt_abbrev p = none := by
    intro p hp
    rw [prompt_abbrev, mapM_eq_none_of_mem upperFirst? _ [] hp rfl]
    rfl
  refine ⟨habort, ?_⟩
  rintro rows ⟨r, hr, hseg⟩
  have hp : r.prompt ∈ prompts rows := mem_uniqueList.2 (List.mem_map_of_mem _ hr)
  have hnone : (prompts rows).mapM prompt_abbrev = none :=
    mapM_eq_none_of_mem prompt_abbrev _ r.prompt hp (habort _ hseg)
  unfold run_script
  rw [hnone]

/-- Witness for C10 at a concrete technique string with a doubled
underscore. -/
theorem claim_C10_witness : prompt_abbrev "few__shot" = none :=
  claim_C10.1 "few__shot" (by decide)

/-- Witness for C1 at a concrete two-row table and its technique. -/
theorem claim_C1_witness :
    ((top_df [⟨"m1", "p1", "d1", 2⟩, ⟨"m2", "p1", "d1", 1⟩]).filter
          (fun r => r.prompt == "p1")).length
        = min 5 (([⟨"m1", "p1", "d1", 2⟩, ⟨"m2", "p1", "d1", 1⟩] : List Record).filter
            (fun r => r.prompt == "p1")).length
    ∧ (sortDescScore (([⟨"m1", "p1", "d1", 2⟩, ⟨"m2", "p1", "d1", 1⟩] : List Record).filter
          (fun r => r.prompt == "p1"))).Perm
        (([⟨"m1", "p1", "d1", 2⟩, ⟨"m2", "p1", "d1", 1⟩] : List Record).filter
          (fun r => r.prompt == "p1"))
    ∧ (top_df [⟨"m1", "p1", "d1", 2⟩, ⟨"m2", "p1", "d1", 1⟩]).filter
          (fun r => r.prompt == "p1")
        = (sortDescScore (([⟨"m1", "p1", "d1", 2⟩, ⟨"m2", "p1", "d1", 1⟩] : List Record).filter
            (fun r => r.prompt == "p1"))).take 5
    ∧ ∀ a ∈ (sortDescScore (([⟨"m1", "p1", "d1", 2⟩, ⟨"m2", "p1", "d1", 1⟩] : List Record).filter
          (fun r => r.prompt == "p1"))).drop 5,
        ∀ b ∈ (top_df [⟨"m1", "p1", "d1", 2⟩, ⟨"m2", "p1", "d1", 1⟩]).filter
          (fun r => r.prompt == "p1"),
          a.f1_harmonic_mean ≤ b.f1_harmonic_mean :=
  claim_C1 [⟨"m1", "p1", "d1", 2⟩, ⟨"m2", "p1", "d1", 1⟩] "p1"
